import Mathlib

/-!
Shallow embedding of the SPM backend (`src/backend/spm.rs`) of the mise
package-version manager: repository-identifier resolution, remote version
listing, workspace-path derivation, package-manifest decoding, artifact
copying, and the `install_version_impl` pipeline, modelled as pure
functions (external processes and the filesystem appear as oracles and as
an effect trace).
-/

namespace Spm

/-! ### Characters and string helpers

Rust `String`s are modelled as Lean `String`s; the string operations the
source uses (`str::replace`, `str::ends_with`, the `[a-zA-Z0-9_-]`
character class) are implemented on `List Char` so that they reduce in the
kernel. -/

/-- Fuel-driven replacement of every non-overlapping occurrence of `pat`
(non-empty in all uses) by `repl`, scanning left to right — the semantics
of Rust `str::replace`. The fuel is the length of the scanned list, which
bounds the number of steps. -/
def replaceFuel (pat repl : List Char) : Nat → List Char → List Char
  | 0, s => s
  | _ + 1, [] => []
  | n + 1, c :: rest =>
    if pat.isPrefixOf (c :: rest) then
      repl ++ replaceFuel pat repl n (List.drop (pat.length - 1) rest)
    else
      c :: replaceFuel pat repl n rest

/-- Rust `str::replace` on the `List Char` model. -/
def listReplace (s pat repl : List Char) : List Char :=
  replaceFuel pat repl s.length s

/-- Rust `str::replace` on `String`. -/
def strReplace (s pat repl : String) : String :=
  ⟨listReplace s.data pat.data repl.data⟩

/-- Rust `str::ends_with` on the `List Char` model. -/
def strEndsWith (s suffix : String) : Bool :=
  suffix.data.isSuffixOf s.data

/-- The character class `[a-zA-Z0-9_-]` of the shorthand regex. -/
def isWordChar (c : Char) : Bool :=
  c.isAlpha || c.isDigit || c = '_' || c = '-'

/-- Matching of the regex `^[a-zA-Z0-9_-]+/[a-zA-Z0-9_-]+$` from
`SwiftPackageRepo::from_str`: one or more word characters, a single `/`,
one or more word characters. Since `/` is not in the class, the maximal
word-character prefix must be followed by `/` and the remainder must be a
non-empty all-word-character suffix. -/
def matchShorthand (cs : List Char) : Bool :=
  let owner := cs.takeWhile isWordChar
  match cs.dropWhile isWordChar with
  | '/' :: repo => !owner.isEmpty && !repo.isEmpty && repo.all isWordChar
  | _ => false

/-- String version of the shorthand-regex match. -/
def shorthandMatch (s : String) : Bool :=
  matchShorthand s.data

/-! ### Repository identifier resolution (`SwiftPackageRepo::from_str`) -/

/-- The observations `from_str` makes of a parsed URL: `host_str()` and
`path()`. The external `url::Url` parser is abstracted as a function
`String → Option UrlParts` (`none` = parse error). -/
structure UrlParts where
  host : Option String
  path : String
deriving DecidableEq, Repr

/-- A concrete model of the external `url::Url::parse` collaborator,
sufficient for absolute URLs of the form `scheme://host/path...`: the
scheme must be a non-empty alphabetic prefix followed by `://`; the host
is everything up to the next `/`; the path is the rest (or `/` when
absent). Strings without a `://` separator fail to parse, as relative
URLs do under the real parser. Case normalisation of scheme and host is
not modelled. -/
def urlParseModel (s : String) : Option UrlParts :=
  let cs := s.data
  let scheme := cs.takeWhile (fun c => c.isAlpha)
  match cs.dropWhile (fun c => c.isAlpha) with
  | ':' :: '/' :: '/' :: rest =>
    if scheme.isEmpty then none
    else
      let host := rest.takeWhile (fun c => c ≠ '/')
      let path := rest.dropWhile (fun c => c ≠ '/')
      some ⟨some ⟨host⟩, if path.isEmpty then "/" else ⟨path⟩⟩
  | _ => none

/-- The struct `SwiftPackageRepo { url }`. -/
structure SwiftPackageRepo where
  url : String
deriving DecidableEq, Repr

/-- Resolution `SwiftPackageRepo::from_str`, parameterised by the URL parser: if the
input parses as a URL whose host is `github.com` and whose path ends in
`.git`, it is taken verbatim; otherwise, if it matches the
`owner/repo` shorthand regex, it is expanded to
`https://github.com/{s}.git`; otherwise resolution fails with the
`Invalid swift package repo: {s}` error. -/
def SwiftPackageRepo.from_str (parse : String → Option UrlParts)
    (s : String) : Except String SwiftPackageRepo :=
  if (match parse s with
      | some u => u.host = some "github.com" && strEndsWith u.path ".git"
      | none => false) then
    .ok ⟨s⟩
  else if shorthandMatch s then
    .ok ⟨"https://github.com/" ++ s ++ ".git"⟩
  else
    .error ("Invalid swift package repo: " ++ s)

/-! ### Remote version listing (`_list_remote_versions`) -/

/-- A release as returned by `github::list_releases`, reduced to the field
the backend reads. -/
structure Release where
  tag_name : String
deriving DecidableEq, Repr

/-- Listing `_list_remote_versions` applied to the release list the hosting API
returned (newest first): extract the tag names and reverse
(`.map(|r| r.tag_name).rev().collect()`). -/
def list_remote_versions (releases : List Release) : List String :=
  (releases.map Release.tag_name).reverse

/-- Modelled from the spec: `latest_stable_version` is defined on the
`Backend` trait, outside `src/backend/spm.rs`; per the spec it returns the
last element of the ascending remote version list, and nothing when the
list is empty. -/
def latest_stable_version (releases : List Release) : Option String :=
  (list_remote_versions releases).getLast?

/-! ### Workspace path derivation (`clone_package_repo`) -/

/-- The sanitisation chain of `clone_package_repo`:
`.replace("://", "_").replace("/", "_").replace("?", "_").replace("&", "_").replace(":", "_")`. -/
def sanitizeRepoUrl (u : String) : String :=
  strReplace (strReplace (strReplace (strReplace (strReplace u "://" "_")
    "/" "_") "?" "_") "&" "_") ":" "_"

/-- The `repo_dir_name`: sanitised URL, `@`, revision. -/
def repoDirName (repoUrl revision : String) : String :=
  sanitizeRepoUrl repoUrl ++ "@" ++ revision

/-- The workspace path `temp_dir().join("spm").join(&repo_dir_name)`,
with the scratch root `temp_dir()` as a parameter. -/
def tmpRepoDir (tempDir repoUrl revision : String) : String :=
  tempDir ++ "/spm/" ++ repoDirName repoUrl revision

/-- Rust `Path::parent` on the string model: everything before the final `/`. -/
def parentPath (p : String) : String :=
  ⟨(p.data.reverse.dropWhile (fun c => c ≠ '/')).drop 1 |>.reverse⟩

/-! ### Manifest JSON and its decoding -/

/-- JSON values, as decoded by `serde_json`. -/
inductive Json where
  | null : Json
  | bool : Bool → Json
  | num : Int → Json
  | str : String → Json
  | arr : List Json → Json
  | obj : List (String × Json) → Json
deriving Repr

/-- The enum `PackageDescriptionProductType`. -/
inductive PackageDescriptionProductType where
  | Executable
  | Other
deriving DecidableEq, Repr

/-- The predicate `PackageDescriptionProductType::is_executable`. -/
def PackageDescriptionProductType.is_executable :
    PackageDescriptionProductType → Bool
  | .Executable => true
  | .Other => false

/-- Decoding `PackageDescriptionProductType::deserialize_product_type_field`:
the custom visitor reads the map's first key — `"executable"` yields
`Executable`, any other key yields `Other`, and the associated value is
read and discarded either way; an empty map fails with `missing key`, and
after the one entry the `serde_json` map deserializer requires the map to
end, so a second entry fails; a non-map value fails the `visit_map`
expectation. -/
def deserialize_product_type_field :
    Json → Except String PackageDescriptionProductType
  | .obj [] => .error "missing key"
  | .obj [(key, _value)] =>
    if key = "executable" then .ok .Executable else .ok .Other
  | .obj (_ :: _ :: _) => .error "trailing characters in map"
  | _ => .error "invalid type: expected a map with a key 'executable' or other types"

/-- The struct `PackageDescriptionProduct { name, r#type }`. -/
structure PackageDescriptionProduct where
  name : String
  type : PackageDescriptionProductType
deriving DecidableEq, Repr

/-- First value bound to `key` in a decoded JSON object, as the derived
serde deserializer would find it. -/
def getField (fields : List (String × Json)) (key : String) : Option Json :=
  (fields.find? (fun f => f.1 = key)).map (fun f => f.2)

/-- The derived deserializer for `PackageDescriptionProduct`: an object
with a string `name` field and a `type` field decoded by
`deserialize_product_type_field`; a missing field, a non-string name or a
non-object input are decode errors. -/
def decodeProduct : Json → Except String PackageDescriptionProduct
  | .obj fields =>
    match getField fields "name" with
    | none => .error "missing field name"
    | some nameJson =>
      match nameJson with
      | .str name =>
        match getField fields "type" with
        | none => .error "missing field type"
        | some typeJson =>
          match deserialize_product_type_field typeJson with
          | .error e => .error e
          | .ok ty => .ok ⟨name, ty⟩
      | _ => .error "invalid type for field name: expected a string"
  | _ => .error "invalid type: expected struct PackageDescriptionProduct"

/-- Decode every element of a JSON array as a product, failing on the
first error. -/
def decodeProducts : List Json → Except String (List PackageDescriptionProduct)
  | [] => .ok []
  | j :: rest =>
    match decodeProduct j with
    | .error e => .error e
    | .ok p =>
      match decodeProducts rest with
      | .error e => .error e
      | .ok ps => .ok (p :: ps)

/-- The struct `PackageDescription { products }`. -/
structure PackageDescription where
  products : List PackageDescriptionProduct
deriving DecidableEq, Repr

/-- The derived deserializer for `PackageDescription`: an object with a
`products` array of products. -/
def decodePackageDescription : Json → Except String PackageDescription
  | .obj fields =>
    match getField fields "products" with
    | none => .error "missing field products"
    | some (.arr elems) =>
      match decodeProducts elems with
      | .error e => .error e
      | .ok ps => .ok ⟨ps⟩
    | some _ => .error "invalid type for field products: expected a sequence"
  | _ => .error "invalid type: expected struct PackageDescription"

/-- The pure core of `get_executable_names`, applied to the JSON produced
by `swift package dump-package`: decode the package description (wrapping
decode errors in the `Failed to parse package description` message),
filter the products by `is_executable`, and return their names in order. -/
def get_executable_names (packageJson : Json) : Except String (List String) :=
  match decodePackageDescription packageJson with
  | .error err => .error ("Failed to parse package description. Details: " ++ err)
  | .ok descr =>
    .ok ((descr.products.filter
      (fun p => p.type.is_executable)).map (fun p => p.name))

/-! ### Artifact copying (`copy_build_artifacts`)

The build-output tree is modelled as the list of entries `WalkDir` yields,
each carrying its path relative to the build output root (the
`strip_prefix(&bin_path)` result) and whether it is a directory; file
copies and directory creations are recorded as operations. -/

/-- One entry of the recursive walk over the build output directory. -/
structure FsEntry where
  relPath : String
  isDir : Bool
deriving DecidableEq, Repr

/-- Rust `Path::extension().unwrap_or_default()` on the string model: the
part of the final path component after its last `.`, and the empty string
when the final component has no `.` or only a leading one. -/
def pathExtension (p : String) : String :=
  let fileName := (p.data.reverse.takeWhile (fun c => c ≠ '/')).reverse
  let revName := fileName.reverse
  let revExt := revName.takeWhile (fun c => c ≠ '.')
  if revExt.length = revName.length then ""
  else if (revName.drop (revExt.length + 1)).isEmpty then ""
  else ⟨revExt.reverse⟩

/-- The filter of `copy_build_artifacts`:
`ext == "dylib" || ext == "bundle"`. -/
def isArtifactExt (p : String) : Bool :=
  pathExtension p = "dylib" || pathExtension p = "bundle"

/-- Filesystem operations emitted by `copy_build_artifacts`. -/
inductive CopyOp where
  | createDirAll : String → CopyOp
  | copyFile : String → String → CopyOp
  | copyDirAll : String → String → CopyOp
deriving DecidableEq, Repr

/-- Installation `copy_build_artifacts` as the list of filesystem operations it
performs: create the destination `bin` directory, copy the primary
executable file named `executable` from the build output into it, then
for every walked entry whose extension is `dylib` or `bundle`, create the
parent of its destination (the relative path re-rooted under the
destination) and copy it — `copy_dir_all` for a directory, `copy` for a
file. Non-matching entries contribute nothing. -/
def copy_build_artifacts (binPath executable installBinPath : String)
    (entries : List FsEntry) : List CopyOp :=
  [.createDirAll installBinPath,
   .copyFile (binPath ++ "/" ++ executable) (installBinPath ++ "/" ++ executable)]
  ++ (entries.filter (fun e => isArtifactExt e.relPath)).flatMap (fun e =>
      let installPath := installBinPath ++ "/" ++ e.relPath
      [.createDirAll (parentPath installPath),
       if e.isDir then .copyDirAll (binPath ++ "/" ++ e.relPath) installPath
       else .copyFile (binPath ++ "/" ++ e.relPath) installPath])

/-! ### The install pipeline (`install_version_impl`)

The pipeline is modelled as a function from an oracle environment — the
experimental-settings flag, the URL parser, the release list, the dumped
manifest JSON, and per-step success oracles for the external git, swift
and filesystem operations — to the returned `Result` together with the
trace of external effects performed, in order. -/

/-- External effects of the install pipeline, in the order performed. -/
inductive Effect where
  | removeAll : String → Effect
  | createDirAll : String → Effect
  | gitClone : String → String → Effect
  | gitUpdate : String → String → Effect
  | dumpPackage : String → Effect
  | buildProduct : String → Effect
  | showBinPath : String → Effect
  | copyArtifacts : String → String → Effect
deriving DecidableEq, Repr

/-- The environment an install attempt runs against. -/
structure InstallEnv where
  /-- Flag `Settings::experimental`, checked by `ensure_experimental`. -/
  experimental : Bool
  /-- The scratch root `temp_dir()`. -/
  tempDir : String
  /-- The `self.name()` value, the package identifier. -/
  name : String
  /-- The `ctx.tv.version` value, the requested version. -/
  version : String
  /-- The releases `github::list_releases` returns, newest first. -/
  releases : List Release
  /-- The external `url::Url::parse`. -/
  urlParse : String → Option UrlParts
  /-- Whether `git clone` succeeds. -/
  cloneOk : Bool
  /-- Whether the `git` checkout of the revision succeeds. -/
  updateOk : Bool
  /-- Whether `swift package dump-package` runs successfully. -/
  dumpOk : Bool
  /-- The JSON `swift package dump-package` prints. -/
  packageJson : Json
  /-- Whether `swift build` succeeds for a product. -/
  buildOk : String → Bool
  /-- Whether the `--show-bin-path` query succeeds for a product. -/
  showBinOk : String → Bool
  /-- The path the `--show-bin-path` query prints for a product. -/
  binPath : String → String
  /-- Whether `copy_build_artifacts` succeeds for a product. -/
  copyOk : String → Bool

/-- The per-product loop of `install_version_impl`: build the product,
query its bin path, copy its artifacts; stop at the first failing step. -/
def installLoop (env : InstallEnv) : List String → Except String Unit × List Effect
  | [] => (.ok (), [])
  | p :: rest =>
    if env.buildOk p = false then
      (.error ("Failed to build product " ++ p), [.buildProduct p])
    else if env.showBinOk p = false then
      (.error ("Failed to query bin path for " ++ p),
       [.buildProduct p, .showBinPath p])
    else if env.copyOk p = false then
      (.error ("Failed to copy artifacts for " ++ p),
       [.buildProduct p, .showBinPath p, .copyArtifacts p (env.binPath p)])
    else
      let (res, t) := installLoop env rest
      (res, [.buildProduct p, .showBinPath p, .copyArtifacts p (env.binPath p)] ++ t)

/-- The version `install_version_impl` resolves: `latest` goes through
`latest_stable_version` (erroring with `No stable versions found` when
there is none), anything else is used as given. -/
def resolveVersion (env : InstallEnv) : Except String String :=
  if env.version = "latest" then
    match latest_stable_version env.releases with
    | none => .error "No stable versions found"
    | some v => .ok v
  else .ok env.version

/-- The pipeline `install_version_impl`: check the experimental flag, resolve the
repository identifier, resolve the version, derive and forcibly clear the
workspace, clone and check out, dump and decode the manifest, fail with
`No executables found in the package` when no product is an executable,
run the per-product build-and-copy loop, and remove the workspace only
after the loop has fully succeeded. -/
def install_version_impl (env : InstallEnv) : Except String Unit × List Effect :=
  if env.experimental = false then
    (.error "spm backend is an experimental feature", [])
  else
    match SwiftPackageRepo.from_str env.urlParse env.name with
    | .error e => (.error e, [])
    | .ok repo =>
      match resolveVersion env with
      | .error e => (.error e, [])
      | .ok version =>
        let repoDir := tmpRepoDir env.tempDir repo.url version
        let preTrace : List Effect :=
          [.removeAll repoDir, .createDirAll (parentPath repoDir)]
        if env.cloneOk = false then
          (.error "Failed to clone repository", preTrace ++ [.gitClone repo.url repoDir])
        else if env.updateOk = false then
          (.error "Failed to check out revision",
           preTrace ++ [.gitClone repo.url repoDir, .gitUpdate version repoDir])
        else
          let cloneTrace := preTrace ++
            [Effect.gitClone repo.url repoDir, Effect.gitUpdate version repoDir]
          if env.dumpOk = false then
            (.error "Failed to dump package", cloneTrace ++ [.dumpPackage repoDir])
          else
            match get_executable_names env.packageJson with
            | .error e => (.error e, cloneTrace ++ [.dumpPackage repoDir])
            | .ok executables =>
              let t := cloneTrace ++ [Effect.dumpPackage repoDir]
              if executables.isEmpty then
                (.error "No executables found in the package", t)
              else
                match installLoop env executables with
                | (.ok _, lt) => (.ok (), t ++ lt ++ [.removeAll repoDir])
                | (.error e, lt) => (.error e, t ++ lt)

/-- The workspace directory an environment resolves to, when identifier
and version resolution succeed. -/
def resolvedWorkspace (env : InstallEnv) : Option String :=
  match SwiftPackageRepo.from_str env.urlParse env.name with
  | .error _ => none
  | .ok repo =>
    match resolveVersion env with
    | .error _ => none
    | .ok version => some (tmpRepoDir env.tempDir repo.url version)

/-- Rust `str::starts_with` on the `List Char` model, used to observe the
scheme of a stored URL. -/
def strStartsWith (s pre : String) : Bool :=
  pre.data.isPrefixOf s.data

/-! ## Theorems -/

/-- C1: `SwiftPackageRepo::from_str` takes a parsed URL with host
`github.com` and a `.git` path verbatim; otherwise it expands a string
matching the `owner/repo` shorthand regex to
`https://github.com/{owner}/{repo}.git`; otherwise it fails with the
`Invalid swift package repo` error naming the input. Concretely (with the
URL-parser model): `owner/repo` expands, the full GitHub URL is returned
unchanged, and `not a repo` and the GitLab URL fail. -/
theorem c1_identifier_resolution :
    (∀ parse s u, parse s = some u → u.host = some "github.com" →
        strEndsWith u.path ".git" = true →
        SwiftPackageRepo.from_str parse s = .ok ⟨s⟩)
  ∧ (∀ parse s,
        (∀ u, parse s = some u →
          ¬(u.host = some "github.com" ∧ strEndsWith u.path ".git" = true)) →
        shorthandMatch s = true →
        SwiftPackageRepo.from_str parse s =
          .ok ⟨"https://github.com/" ++ s ++ ".git"⟩)
  ∧ (∀ parse s,
        (∀ u, parse s = some u →
          ¬(u.host = some "github.com" ∧ strEndsWith u.path ".git" = true)) →
        shorthandMatch s = false →
        SwiftPackageRepo.from_str parse s =
          .error ("Invalid swift package repo: " ++ s))
  ∧ SwiftPackageRepo.from_str urlParseModel "owner/repo" =
      .ok ⟨"https://github.com/owner/repo.git"⟩
  ∧ SwiftPackageRepo.from_str urlParseModel "https://github.com/owner/repo.git" =
      .ok ⟨"https://github.com/owner/repo.git"⟩
  ∧ SwiftPackageRepo.from_str urlParseModel "not a repo" =
      .error "Invalid swift package repo: not a repo"
  ∧ SwiftPackageRepo.from_str urlParseModel "https://gitlab.com/owner/repo.git" =
      .error "Invalid swift package repo: https://gitlab.com/owner/repo.git" := by
  refine ⟨?_, ?_, ?_, rfl, rfl, rfl, rfl⟩
  · intro parse s u hu hhost hgit
    simp [SwiftPackageRepo.from_str, hu, hhost, hgit]
  · intro parse s hno hshort
    have hguard : (match parse s with
        | some u => u.host = some "github.com" && strEndsWith u.path ".git"
        | none => false) = false := by
      cases hp : parse s with
      | none => rfl
      | some u =>
        have := hno u hp
        simp only [Bool.and_eq_true, decide_eq_true_eq, not_and] at this ⊢
        by_cases h1 : u.host = some "github.com"
        · simp [h1, this h1]
        · simp [h1]
    simp [SwiftPackageRepo.from_str, hguard, hshort]
  · intro parse s hno hshort
    have hguard : (match parse s with
        | some u => u.host = some "github.com" && strEndsWith u.path ".git"
        | none => false) = false := by
      cases hp : parse s with
      | none => rfl
      | some u =>
        have := hno u hp
        simp only [Bool.and_eq_true, decide_eq_true_eq, not_and] at this ⊢
        by_cases h1 : u.host = some "github.com"
        · simp [h1, this h1]
        · simp [h1]
    simp [SwiftPackageRepo.from_str, hguard, hshort]

/-- C1 witness: the general clauses applied at concrete inputs. -/
theorem c1_identifier_resolution_witness :
    SwiftPackageRepo.from_str urlParseModel "mise/mise" =
      .ok ⟨"https://github.com/mise/mise.git"⟩
    ∧ SwiftPackageRepo.from_str urlParseModel "???" =
      .error "Invalid swift package repo: ???" :=
  ⟨c1_identifier_resolution.2.1 urlParseModel "mise/mise"
      (fun _ h => Option.noConfusion h) rfl,
   c1_identifier_resolution.2.2.1 urlParseModel "???"
      (fun _ h => Option.noConfusion h) rfl⟩

/-- C9: when the experimental settings flag is off, `install_version_impl`
fails immediately, for every environment: the result does not depend on
the package name, version, parser, releases or manifest, and the effect
trace is empty — no resolution, cloning or filesystem change happens. -/
theorem c9_experimental_gate (env : InstallEnv)
    (h : env.experimental = false) :
    install_version_impl env =
      (.error "spm backend is an experimental feature", []) := by
  simp [install_version_impl, h]

/-- C9 witness: a concrete environment with the flag off. -/
theorem c9_experimental_gate_witness :
    install_version_impl
      { experimental := false, tempDir := "/tmp", name := "owner/repo",
        version := "latest", releases := [], urlParse := urlParseModel,
        cloneOk := true, updateOk := true, dumpOk := true,
        packageJson := .null, buildOk := fun _ => true,
        showBinOk := fun _ => true, binPath := fun _ => "/b",
        copyOk := fun _ => true } =
      (.error "spm backend is an experimental feature", []) :=
  c9_experimental_gate _ rfl

/-- C2 counterexample: `http://github.com/owner/repo.git` parses as a URL
with host `github.com` and a `.git` path, so `from_str` accepts it and
stores it verbatim — with scheme `http`, not `https`. -/
theorem c2_https_counterexample :
    SwiftPackageRepo.from_str urlParseModel "http://github.com/owner/repo.git" =
      .ok ⟨"http://github.com/owner/repo.git"⟩
    ∧ strStartsWith "http://github.com/owner/repo.git" "https://" = false := by
  exact ⟨rfl, rfl⟩

/-- C2 (amended): every accepted input yields either the HTTPS shorthand
expansion `https://github.com/{owner}/{repo}.git`, or the input used
verbatim — which then parses as a URL whose host is `github.com` and
whose path ends in `.git`, but whose scheme is not forced to be HTTPS. -/
theorem c2_accepted_url_shape (parse : String → Option UrlParts)
    (s : String) (repo : SwiftPackageRepo)
    (h : SwiftPackageRepo.from_str parse s = .ok repo) :
    (shorthandMatch s = true ∧ repo.url = "https://github.com/" ++ s ++ ".git")
    ∨ (repo.url = s ∧ ∃ u, parse s = some u ∧ u.host = some "github.com" ∧
        strEndsWith u.path ".git" = true) := by
  unfold SwiftPackageRepo.from_str at h
  split at h
  · rename_i hguard
    right
    cases h
    refine ⟨rfl, ?_⟩
    cases hp : parse s with
    | none => rw [hp] at hguard; simp at hguard
    | some u =>
      rw [hp] at hguard
      simp only [Bool.and_eq_true, decide_eq_true_eq] at hguard
      exact ⟨u, rfl, hguard.1, hguard.2⟩
  · split at h
    · rename_i hshort
      left
      cases h
      exact ⟨hshort, rfl⟩
    · simp at h

/-- C2 amended-claim witness: the shape theorem applied to the verbatim
acceptance of the full GitHub HTTPS URL. -/
theorem c2_accepted_url_shape_witness :
    (shorthandMatch "https://github.com/owner/repo.git" = true ∧
      "https://github.com/owner/repo.git" =
        "https://github.com/" ++ "https://github.com/owner/repo.git" ++ ".git")
    ∨ ("https://github.com/owner/repo.git" = "https://github.com/owner/repo.git" ∧
        ∃ u, urlParseModel "https://github.com/owner/repo.git" = some u ∧
          u.host = some "github.com" ∧ strEndsWith u.path ".git" = true) :=
  c2_accepted_url_shape urlParseModel "https://github.com/owner/repo.git"
    ⟨"https://github.com/owner/repo.git"⟩ rfl

/-- C3: the remote version list is the exact reversal of the newest-first
release order — element `i` of the hosting-API list appears at position
`length - 1 - i` — and the latest stable version is, positionally, the
last element of the ascending list, i.e. the tag of the first
(newest-first) release; it is `none` exactly when the release list is
empty, making `resolveVersion` fail with `No stable versions found` for
the `latest` sentinel, and resolve `latest` to the last element
otherwise. Concretely, `["v1.1.0","v1.2.0","v1.0.0"]` newest-first gives
the ascending list `["v1.0.0","v1.2.0","v1.1.0"]` with latest
`"v1.1.0"` — positional, not the semver maximum `"v1.2.0"`. -/
theorem c3_version_list_reversal :
    (∀ (releases : List Release) (i : Nat), i < releases.length →
        (list_remote_versions releases)[releases.length - 1 - i]? =
          (releases[i]?).map Release.tag_name)
  ∧ (∀ (r : Release) (rest : List Release),
        latest_stable_version (r :: rest) = some r.tag_name)
  ∧ latest_stable_version [] = none
  ∧ (∀ env : InstallEnv, env.version = "latest" → env.releases = [] →
        resolveVersion env = .error "No stable versions found")
  ∧ (∀ (env : InstallEnv) (v : String), env.version = "latest" →
        latest_stable_version env.releases = some v →
        resolveVersion env = .ok v)
  ∧ list_remote_versions [⟨"v1.1.0"⟩, ⟨"v1.2.0"⟩, ⟨"v1.0.0"⟩] =
      ["v1.0.0", "v1.2.0", "v1.1.0"]
  ∧ latest_stable_version [⟨"v1.1.0"⟩, ⟨"v1.2.0"⟩, ⟨"v1.0.0"⟩] = some "v1.1.0" := by
  refine ⟨?_, ?_, rfl, ?_, ?_, rfl, rfl⟩
  · intro releases i hi
    unfold list_remote_versions
    rw [List.getElem?_reverse (by simp; omega)]
    simp only [List.length_map]
    have : releases.length - 1 - (releases.length - 1 - i) = i := by omega
    rw [this, List.getElem?_map]
  · intro r rest
    unfold latest_stable_version list_remote_versions
    rw [List.getLast?_reverse]
    rfl
  · intro env hv hr
    simp [resolveVersion, hv, hr, latest_stable_version, list_remote_versions]
  · intro env v hv hl
    simp [resolveVersion, hv, hl]

/-- C3 witness: the reversal-index clause and the latest-resolution
clauses at concrete inputs. -/
theorem c3_version_list_reversal_witness :
    (list_remote_versions [⟨"v1.1.0"⟩, ⟨"v1.2.0"⟩, ⟨"v1.0.0"⟩])[2]? =
      some "v1.1.0"
    ∧ resolveVersion
        { experimental := true, tempDir := "/tmp", name := "owner/repo",
          version := "latest",
          releases := [⟨"v1.1.0"⟩, ⟨"v1.2.0"⟩, ⟨"v1.0.0"⟩],
          urlParse := urlParseModel, cloneOk := true, updateOk := true,
          dumpOk := true, packageJson := .null, buildOk := fun _ => true,
          showBinOk := fun _ => true, binPath := fun _ => "/b",
          copyOk := fun _ => true } = .ok "v1.1.0" := by
  constructor
  · have := c3_version_list_reversal.1 [⟨"v1.1.0"⟩, ⟨"v1.2.0"⟩, ⟨"v1.0.0"⟩] 0
      (by decide)
    simpa using this
  · exact c3_version_list_reversal.2.2.2.2.1 _ "v1.1.0" rfl rfl

/-- Replacing every occurrence of the single character `c` by `_` leaves
no occurrence of `c` (for `c ≠ '_'`), given enough fuel. -/
lemma not_mem_replaceFuel_single {c : Char} (hne : c ≠ '_') :
    ∀ (n : Nat) (s : List Char), s.length ≤ n →
      c ∉ replaceFuel [c] ['_'] n s := by
  intro n
  induction n with
  | zero =>
    intro s hs
    have : s = [] := List.eq_nil_of_length_eq_zero (Nat.le_zero.mp hs)
    subst this
    simp [replaceFuel]
  | succ n ih =>
    intro s hs
    match s with
    | [] => simp [replaceFuel]
    | c' :: rest =>
      simp only [replaceFuel]
      by_cases hpre : List.isPrefixOf [c] (c' :: rest) = true
      · rw [if_pos hpre]
        have hlen : (List.drop ([c].length - 1) rest).length ≤ n := by
          simp only [List.length_cons] at hs
          simp only [List.length_drop, List.length_cons, List.length_nil]
          omega
        intro hmem
        rcases List.mem_append.mp hmem with h1 | h2
        · simp at h1; exact hne h1
        · exact ih _ hlen h2
      · rw [if_neg hpre]
        have hcc : ¬(c = c') := by
          intro hcc
          apply hpre
          subst hcc
          simp [List.isPrefixOf]
        intro hmem
        rcases List.mem_cons.mp hmem with h1 | h2
        · exact hcc h1
        · exact ih _ (by simpa using Nat.le_of_succ_le_succ hs) h2

/-- Replacement never introduces a character that occurs neither in the
input nor in the replacement string. -/
lemma not_mem_replaceFuel_preserve {c : Char} {pat repl : List Char}
    (hrepl : c ∉ repl) :
    ∀ (n : Nat) (s : List Char), c ∉ s → c ∉ replaceFuel pat repl n s := by
  intro n
  induction n with
  | zero => intro s hs; simpa [replaceFuel] using hs
  | succ n ih =>
    intro s hs
    match s with
    | [] => simp [replaceFuel]
    | c' :: rest =>
      simp only [replaceFuel]
      have hc' : ¬(c = c') := fun h => hs (h ▸ List.mem_cons_self c' rest)
      have hrest : c ∉ rest := fun h => hs (List.mem_cons_of_mem c' h)
      by_cases hpre : List.isPrefixOf pat (c' :: rest) = true
      · rw [if_pos hpre]
        intro hmem
        rcases List.mem_append.mp hmem with h1 | h2
        · exact hrepl h1
        · exact ih _ (fun h => hrest (List.drop_subset _ _ h)) h2
      · rw [if_neg hpre]
        intro hmem
        rcases List.mem_cons.mp hmem with h1 | h2
        · exact hc' h1
        · exact ih _ hrest h2

/-- No character replaced by the sanitisation chain survives in a
sanitised URL: the result contains no `/`, `?`, `&` or `:` (each
occurrence of `://`, `/`, `?`, `&`, `:` has been replaced by `_`). -/
lemma sanitizeRepoUrl_chars (u : String) :
    '/' ∉ (sanitizeRepoUrl u).data ∧ '?' ∉ (sanitizeRepoUrl u).data ∧
    '&' ∉ (sanitizeRepoUrl u).data ∧ ':' ∉ (sanitizeRepoUrl u).data := by
  have step (s : List Char) (c : Char) (hne : c ≠ '_') :
      c ∉ replaceFuel [c] ['_'] s.length s :=
    not_mem_replaceFuel_single hne s.length s (Nat.le_refl _)
  have keep (s : List Char) (pat : List Char) (c : Char) (hne : c ≠ '_')
      (h : c ∉ s) : c ∉ replaceFuel pat ['_'] s.length s :=
    not_mem_replaceFuel_preserve (by simpa using hne) s.length s h
  set s1 := listReplace u.data "://".data "_".data with hs1
  set s2 := listReplace s1 "/".data "_".data with hs2
  set s3 := listReplace s2 "?".data "_".data with hs3
  set s4 := listReplace s3 "&".data "_".data with hs4
  have hres : (sanitizeRepoUrl u).data = listReplace s4 ":".data "_".data := rfl
  have h2 : '/' ∉ s2 := by
    rw [hs2]; exact step s1 '/' (by decide)
  have h3s : '?' ∉ s3 := by
    rw [hs3]; exact step s2 '?' (by decide)
  have h3k : '/' ∉ s3 := by
    rw [hs3]; exact keep s2 _ '/' (by decide) h2
  have h4s : '&' ∉ s4 := by
    rw [hs4]; exact step s3 '&' (by decide)
  have h4a : '/' ∉ s4 := by
    rw [hs4]; exact keep s3 _ '/' (by decide) h3k
  have h4b : '?' ∉ s4 := by
    rw [hs4]; exact keep s3 _ '?' (by decide) h3s
  refine ⟨?_, ?_, ?_, ?_⟩
  · rw [hres]; exact keep s4 _ '/' (by decide) h4a
  · rw [hres]; exact keep s4 _ '?' (by decide) h4b
  · rw [hres]; exact keep s4 _ '&' (by decide) h4s
  · rw [hres]; exact step s4 ':' (by decide)

/-- C4: the workspace path is the scratch root joined with `spm` and
`sanitize(url) ++ "@" ++ version`; sanitisation eliminates every
occurrence of `://`, `/`, `?`, `&` and `:` (none of these characters
survives), as the concrete evaluations also show; being a pure function
of the root, URL and version, the derived path is identical for
identical inputs; and along every install that reaches the fetch step the
first effects are the forcible removal of the workspace path and the
recreation of its parent, before the clone. -/
theorem c4_workspace_path :
    (∀ tempDir u v, tmpRepoDir tempDir u v =
        tempDir ++ "/spm/" ++ (sanitizeRepoUrl u ++ "@" ++ v))
  ∧ (∀ u, '/' ∉ (sanitizeRepoUrl u).data ∧ '?' ∉ (sanitizeRepoUrl u).data ∧
        '&' ∉ (sanitizeRepoUrl u).data ∧ ':' ∉ (sanitizeRepoUrl u).data)
  ∧ sanitizeRepoUrl "https://github.com/owner/repo.git" =
      "https_github.com_owner_repo.git"
  ∧ sanitizeRepoUrl "a://b/c?d&e:f" = "a_b_c_d_e_f"
  ∧ (∀ (env : InstallEnv) (repo : SwiftPackageRepo) (version : String),
        env.experimental = true →
        SwiftPackageRepo.from_str env.urlParse env.name = .ok repo →
        resolveVersion env = .ok version →
        (install_version_impl env).2.take 3 =
          [.removeAll (tmpRepoDir env.tempDir repo.url version),
           .createDirAll (parentPath (tmpRepoDir env.tempDir repo.url version)),
           .gitClone repo.url (tmpRepoDir env.tempDir repo.url version)]) := by
  refine ⟨?_, sanitizeRepoUrl_chars, rfl, rfl, ?_⟩
  · intro tempDir u v
    rfl
  · intro env repo version hexp hrepo hver
    simp only [install_version_impl, hexp, hrepo, hver]
    norm_num
    split
    · rfl
    · split
      · rfl
      · split
        · rfl
        · split
          · rfl
          · split
            · rfl
            · split
              · rename_i res lt hloop
                simp [List.take]
              · rename_i res lt hloop
                simp [List.take]

/-- C4 witness: the trace-prefix clause at a concrete environment. -/
theorem c4_workspace_path_witness :
    (install_version_impl
      { experimental := true, tempDir := "/tmp", name := "owner/repo",
        version := "1.0.0", releases := [], urlParse := urlParseModel,
        cloneOk := true, updateOk := true, dumpOk := true,
        packageJson := .null, buildOk := fun _ => true,
        showBinOk := fun _ => true, binPath := fun _ => "/b",
        copyOk := fun _ => true }).2.take 3 =
      [.removeAll "/tmp/spm/https_github.com_owner_repo.git@1.0.0",
       .createDirAll "/tmp/spm",
       .gitClone "https://github.com/owner/repo.git"
         "/tmp/spm/https_github.com_owner_repo.git@1.0.0"] := by
  have := c4_workspace_path.2.2.2.2
    { experimental := true, tempDir := "/tmp", name := "owner/repo",
      version := "1.0.0", releases := [], urlParse := urlParseModel,
      cloneOk := true, updateOk := true, dumpOk := true,
      packageJson := .null, buildOk := fun _ => true,
      showBinOk := fun _ => true, binPath := fun _ => "/b",
      copyOk := fun _ => true }
    ⟨"https://github.com/owner/repo.git"⟩ "1.0.0" rfl rfl rfl
  simpa using this

/-- C5: the product-type decoder looks only at the single-entry mapping's
key — `executable` yields the executable variant for every associated
value (null included), any other key yields the non-executable variant
with the value discarded, an empty map and a non-map value are decode
errors — and decoding errors surface as a descriptive parse failure of
`get_executable_names` for a missing `products` array, an empty `type`
map, or a non-object product entry; on a decoded manifest the executable
names are exactly the names of the executable-variant products in
manifest order, as the concrete two-product examples show. -/
theorem c5_manifest_decoding :
    (∀ v : Json, deserialize_product_type_field (.obj [("executable", v)]) =
        .ok .Executable)
  ∧ (∀ (k : String) (v : Json), k ≠ "executable" →
        deserialize_product_type_field (.obj [(k, v)]) = .ok .Other)
  ∧ deserialize_product_type_field (.obj []) = .error "missing key"
  ∧ (∀ s : String, deserialize_product_type_field (.str s) =
        .error "invalid type: expected a map with a key 'executable' or other types")
  ∧ (∀ (json : Json) (descr : PackageDescription),
        decodePackageDescription json = .ok descr →
        get_executable_names json =
          .ok ((descr.products.filter
            (fun p => p.type.is_executable)).map (fun p => p.name)))
  ∧ get_executable_names (.obj [("products", .arr
      [.obj [("name", .str "foo"), ("type", .obj [("executable", .null)])]])]) =
      .ok ["foo"]
  ∧ get_executable_names (.obj [("products", .arr
      [.obj [("name", .str "bar"),
             ("type", .obj [("library", .arr [.str "automatic"])])]])]) =
      .ok []
  ∧ get_executable_names (.obj [("products", .arr
      [.obj [("name", .str "a"), ("type", .obj [("executable", .null)])],
       .obj [("name", .str "bar"),
             ("type", .obj [("library", .arr [.str "automatic"])])],
       .obj [("name", .str "b"), ("type", .obj [("executable", .bool true)])]])]) =
      .ok ["a", "b"]
  ∧ get_executable_names (.obj [("other", .null)]) =
      .error "Failed to parse package description. Details: missing field products"
  ∧ get_executable_names (.obj [("products", .arr
      [.obj [("name", .str "x"), ("type", .obj [])]])]) =
      .error "Failed to parse package description. Details: missing key"
  ∧ get_executable_names (.obj [("products", .arr [.str "oops"])]) =
      .error ("Failed to parse package description. Details: " ++
        "invalid type: expected struct PackageDescriptionProduct") := by
  refine ⟨fun v => rfl, ?_, rfl, fun s => rfl, ?_, rfl, rfl, rfl, rfl, rfl, rfl⟩
  · intro k v hk
    simp [deserialize_product_type_field, hk]
  · intro json descr h
    simp [get_executable_names, h]

/-- C5 witness: the non-executable-key clause and the decoded-manifest
clause at concrete inputs. -/
theorem c5_manifest_decoding_witness :
    deserialize_product_type_field (.obj [("library", .null)]) = .ok .Other
    ∧ get_executable_names (.obj [("products", .arr [])]) = .ok [] :=
  ⟨c5_manifest_decoding.2.1 "library" .null (by decide),
   c5_manifest_decoding.2.2.2.2.1 (.obj [("products", .arr [])]) ⟨[]⟩ rfl⟩

/-- C6: when the decoded manifest has no executable products, an install
that reached the manifest step fails with `No executables found in the
package`, and its effect trace contains no build invocation and no
artifact copy. -/
theorem c6_no_executables (env : InstallEnv)
    (hexp : env.experimental = true)
    (repo : SwiftPackageRepo)
    (hrepo : SwiftPackageRepo.from_str env.urlParse env.name = .ok repo)
    (version : String) (hver : resolveVersion env = .ok version)
    (hclone : env.cloneOk = true) (hupd : env.updateOk = true)
    (hdump : env.dumpOk = true)
    (hexe : get_executable_names env.packageJson = .ok []) :
    (install_version_impl env).1 = .error "No executables found in the package"
    ∧ (∀ p, Effect.buildProduct p ∉ (install_version_impl env).2)
    ∧ (∀ p b, Effect.copyArtifacts p b ∉ (install_version_impl env).2) := by
  have : install_version_impl env =
      (.error "No executables found in the package",
       [.removeAll (tmpRepoDir env.tempDir repo.url version),
        .createDirAll (parentPath (tmpRepoDir env.tempDir repo.url version)),
        .gitClone repo.url (tmpRepoDir env.tempDir repo.url version),
        .gitUpdate version (tmpRepoDir env.tempDir repo.url version),
        .dumpPackage (tmpRepoDir env.tempDir repo.url version)]) := by
    simp [install_version_impl, hexp, hrepo, hver, hclone, hupd, hdump, hexe]
  rw [this]
  refine ⟨rfl, ?_, ?_⟩
  · intro p
    simp
  · intro p b
    simp

/-- C6 witness: a concrete environment whose manifest has a single
library product and no executables. -/
theorem c6_no_executables_witness :
    (install_version_impl
      { experimental := true, tempDir := "/tmp", name := "owner/repo",
        version := "1.0.0", releases := [], urlParse := urlParseModel,
        cloneOk := true, updateOk := true, dumpOk := true,
        packageJson := .obj [("products", .arr
          [.obj [("name", .str "bar"),
                 ("type", .obj [("library", .arr [.str "automatic"])])]])],
        buildOk := fun _ => true, showBinOk := fun _ => true,
        binPath := fun _ => "/b", copyOk := fun _ => true }).1 =
      .error "No executables found in the package" :=
  (c6_no_executables
    { experimental := true, tempDir := "/tmp", name := "owner/repo",
      version := "1.0.0", releases := [], urlParse := urlParseModel,
      cloneOk := true, updateOk := true, dumpOk := true,
      packageJson := .obj [("products", .arr
        [.obj [("name", .str "bar"),
               ("type", .obj [("library", .arr [.str "automatic"])])]])],
      buildOk := fun _ => true, showBinOk := fun _ => true,
      binPath := fun _ => "/b", copyOk := fun _ => true }
    rfl ⟨"https://github.com/owner/repo.git"⟩ rfl
    "1.0.0" rfl rfl rfl rfl rfl).1

/-- C7: artifact installation always copies the primary executable into
the destination; every walked entry whose extension is `dylib` or
`bundle` is copied to its relative path re-rooted under the destination
(directories via a recursive copy, files via a file copy); and every copy
the installer performs is either the primary-executable copy or the copy
of some matching entry — non-matching entries are never copied. The
concrete tree `foo`, `libFoo.dylib`, `Foo.bundle/`, `readme.txt`
evaluates to exactly the copies of `foo`, `libFoo.dylib` and
`Foo.bundle`. -/
theorem c7_artifact_filtering :
    (∀ (binPath executable installBin : String) (entries : List FsEntry),
        CopyOp.copyFile (binPath ++ "/" ++ executable)
            (installBin ++ "/" ++ executable)
          ∈ copy_build_artifacts binPath executable installBin entries)
  ∧ (∀ (binPath executable installBin : String) (entries : List FsEntry),
        ∀ e ∈ entries, isArtifactExt e.relPath = true →
          (if e.isDir then
            CopyOp.copyDirAll (binPath ++ "/" ++ e.relPath)
              (installBin ++ "/" ++ e.relPath)
          else
            CopyOp.copyFile (binPath ++ "/" ++ e.relPath)
              (installBin ++ "/" ++ e.relPath))
            ∈ copy_build_artifacts binPath executable installBin entries)
  ∧ (∀ (binPath executable installBin src dst : String)
        (entries : List FsEntry),
        CopyOp.copyFile src dst ∈
            copy_build_artifacts binPath executable installBin entries →
          (src = binPath ++ "/" ++ executable ∧
            dst = installBin ++ "/" ++ executable)
          ∨ ∃ e ∈ entries, isArtifactExt e.relPath = true ∧ e.isDir = false ∧
              src = binPath ++ "/" ++ e.relPath ∧
              dst = installBin ++ "/" ++ e.relPath)
  ∧ (∀ (binPath executable installBin src dst : String)
        (entries : List FsEntry),
        CopyOp.copyDirAll src dst ∈
            copy_build_artifacts binPath executable installBin entries →
          ∃ e ∈ entries, isArtifactExt e.relPath = true ∧ e.isDir = true ∧
            src = binPath ++ "/" ++ e.relPath ∧
            dst = installBin ++ "/" ++ e.relPath)
  ∧ copy_build_artifacts "B" "foo" "I"
      [⟨"foo", false⟩, ⟨"libFoo.dylib", false⟩, ⟨"Foo.bundle", true⟩,
       ⟨"readme.txt", false⟩] =
      [.createDirAll "I", .copyFile "B/foo" "I/foo",
       .createDirAll "I", .copyFile "B/libFoo.dylib" "I/libFoo.dylib",
       .createDirAll "I", .copyDirAll "B/Foo.bundle" "I/Foo.bundle"] := by
  refine ⟨?_, ?_, ?_, ?_, rfl⟩
  · intro binPath executable installBin entries
    unfold copy_build_artifacts
    simp
  · intro binPath executable installBin entries e he hext
    unfold copy_build_artifacts
    rw [List.mem_append]
    right
    rw [List.mem_flatMap]
    refine ⟨e, List.mem_filter.mpr ⟨he, hext⟩, ?_⟩
    cases hd : e.isDir <;> simp [hd]
  · intro binPath executable installBin src dst entries hmem
    unfold copy_build_artifacts at hmem
    rw [List.mem_append] at hmem
    rcases hmem with h | h
    · left
      simp only [List.mem_cons, List.not_mem_nil, or_false] at h
      rcases h with h | h
      · exact absurd h (by simp)
      · injection h with h1 h2
        exact ⟨h1, h2⟩
    · rw [List.mem_flatMap] at h
      obtain ⟨e, hef, hop⟩ := h
      obtain ⟨he, hext⟩ := List.mem_filter.mp hef
      right
      refine ⟨e, he, hext, ?_⟩
      cases hd : e.isDir
      · simp only [hd, if_false, Bool.false_eq_true, List.mem_cons,
          List.not_mem_nil, or_false] at hop
        rcases hop with h | h
        · exact absurd h (by simp)
        · injection h with h1 h2
          exact ⟨rfl, h1, h2⟩
      · simp only [hd, if_true, List.mem_cons, List.not_mem_nil, or_false] at hop
        rcases hop with h | h
        · exact absurd h (by simp)
        · exact absurd h (by simp)
  · intro binPath executable installBin src dst entries hmem
    unfold copy_build_artifacts at hmem
    rw [List.mem_append] at hmem
    rcases hmem with h | h
    · exact absurd h (by simp)
    · rw [List.mem_flatMap] at h
      obtain ⟨e, hef, hop⟩ := h
      obtain ⟨he, hext⟩ := List.mem_filter.mp hef
      refine ⟨e, he, hext, ?_⟩
      cases hd : e.isDir
      · simp only [hd, if_false, Bool.false_eq_true, List.mem_cons,
          List.not_mem_nil, or_false] at hop
        rcases hop with h | h
        · exact absurd h (by simp)
        · exact absurd h (by simp)
      · simp only [hd, if_true, List.mem_cons, List.not_mem_nil, or_false] at hop
        rcases hop with h | h
        · exact absurd h (by simp)
        · injection h with h1 h2
          exact ⟨rfl, h1, h2⟩

/-- C7 witness: the matching-entry clause and the completeness clause at
the concrete tree. -/
theorem c7_artifact_filtering_witness :
    (CopyOp.copyFile ("B" ++ "/" ++ "libFoo.dylib") ("I" ++ "/" ++ "libFoo.dylib")
      ∈ copy_build_artifacts "B" "foo" "I" [⟨"libFoo.dylib", false⟩]) :=
  have h := c7_artifact_filtering.2.1 "B" "foo" "I" [⟨"libFoo.dylib", false⟩]
    ⟨"libFoo.dylib", false⟩ (List.mem_singleton.mpr rfl) rfl
  by simpa using h

/-- Unfolding of the loop at a fully succeeding product. -/
lemma installLoop_cons_ok (env : InstallEnv) (p : String) (rest : List String)
    (h1 : ¬(env.buildOk p = false)) (h2 : ¬(env.showBinOk p = false))
    (h3 : ¬(env.copyOk p = false)) :
    installLoop env (p :: rest) =
      ((installLoop env rest).1,
       [.buildProduct p, .showBinPath p, .copyArtifacts p (env.binPath p)] ++
         (installLoop env rest).2) := by
  simp only [installLoop, h1, h2, h3, if_neg]
  cases hr : installLoop env rest
  simp

/-- The loop performs only build, bin-path-query and copy effects —
never a directory removal. -/
lemma installLoop_no_removeAll (env : InstallEnv) :
    ∀ (ps : List String) (d : String),
      Effect.removeAll d ∉ (installLoop env ps).2 := by
  intro ps
  induction ps with
  | nil => intro d; simp [installLoop]
  | cons p rest ih =>
    intro d
    by_cases h1 : env.buildOk p = false
    · simp [installLoop, h1]
    · by_cases h2 : env.showBinOk p = false
      · simp [installLoop, h1, h2]
      · by_cases h3 : env.copyOk p = false
        · simp [installLoop, h1, h2, h3]
        · rw [installLoop_cons_ok env p rest h1 h2 h3]
          simp only [List.cons_append, List.nil_append, List.mem_cons]
          intro hmem
          rcases hmem with h | h | h | h
          · exact Effect.noConfusion h
          · exact Effect.noConfusion h
          · exact Effect.noConfusion h
          · exact ih d h

/-- The loop's trace is never empty on a non-empty product list. -/
lemma installLoop_cons_ne_nil (env : InstallEnv) (p : String)
    (rest : List String) : (installLoop env (p :: rest)).2 ≠ [] := by
  by_cases h1 : env.buildOk p = false
  · simp [installLoop, h1]
  · by_cases h2 : env.showBinOk p = false
    · simp [installLoop, h1, h2]
    · by_cases h3 : env.copyOk p = false
      · simp [installLoop, h1, h2, h3]
      · rw [installLoop_cons_ok env p rest h1 h2 h3]
        simp

/-- A fully succeeding prefix of products contributes its three effects
per product and passes the rest of the loop through. -/
lemma installLoop_ok_prefix (env : InstallEnv) :
    ∀ (pre rest : List String),
      (∀ q ∈ pre, env.buildOk q = true ∧ env.showBinOk q = true ∧
        env.copyOk q = true) →
      installLoop env (pre ++ rest) =
        ((installLoop env rest).1,
         pre.flatMap (fun q =>
           [.buildProduct q, .showBinPath q, .copyArtifacts q (env.binPath q)]) ++
           (installLoop env rest).2) := by
  intro pre
  induction pre with
  | nil => intro rest _; simp
  | cons q pre ih =>
    intro rest hall
    have hq := hall q (List.mem_cons_self q pre)
    rw [List.cons_append,
      installLoop_cons_ok env q (pre ++ rest) (by simp [hq.1]) (by simp [hq.2.1])
        (by simp [hq.2.2]),
      ih rest (fun x hx => hall x (List.mem_cons_of_mem q hx))]
    simp

/-- A product whose build, bin-path query or copy fails makes the loop
fail. -/
lemma installLoop_fail_head (env : InstallEnv) (p : String)
    (rest : List String)
    (h : (env.buildOk p && env.showBinOk p && env.copyOk p) = false) :
    ∃ e, (installLoop env (p :: rest)).1 = .error e := by
  by_cases h1 : env.buildOk p = false
  · exact ⟨"Failed to build product " ++ p, by simp [installLoop, h1]⟩
  · by_cases h2 : env.showBinOk p = false
    · exact ⟨"Failed to query bin path for " ++ p, by simp [installLoop, h1, h2]⟩
    · by_cases h3 : env.copyOk p = false
      · exact ⟨"Failed to copy artifacts for " ++ p,
          by simp [installLoop, h1, h2, h3]⟩
      · rw [Bool.not_eq_false] at h1 h2 h3
        rw [h1, h2, h3] at h
        simp at h

/-- Shape of an install run: either it stops before touching the
filesystem (empty trace, error result), or the workspace resolves to some
`d`, the trace starts with the forcible `removeAll d`, no other removal
of any path occurs in between, and the trace ends with the cleanup
`removeAll d` exactly when the result is success. -/
lemma install_shape (env : InstallEnv) :
    ((install_version_impl env).2 = [] ∧
      ∃ e, (install_version_impl env).1 = .error e)
  ∨ (∃ d mid, resolvedWorkspace env = some d ∧ mid ≠ [] ∧
      (∀ d2, Effect.removeAll d2 ∉ mid) ∧
      (((∃ e, (install_version_impl env).1 = .error e) ∧
         (install_version_impl env).2 = .removeAll d :: mid)
       ∨ ((install_version_impl env).1 = .ok () ∧
         (install_version_impl env).2 = .removeAll d :: (mid ++ [.removeAll d])))) := by
  by_cases hexp : env.experimental = false
  · left
    simp [install_version_impl, hexp]
  · rcases hrepo : SwiftPackageRepo.from_str env.urlParse env.name with e | repo
    · left
      simp [install_version_impl, hexp, hrepo]
    · rcases hver : resolveVersion env with e | version
      · left
        simp [install_version_impl, hexp, hrepo, hver]
      · right
        have hres : resolvedWorkspace env =
            some (tmpRepoDir env.tempDir repo.url version) := by
          simp [resolvedWorkspace, hrepo, hver]
        refine ⟨tmpRepoDir env.tempDir repo.url version, ?_⟩
        by_cases hclone : env.cloneOk = false
        · refine ⟨[.createDirAll (parentPath (tmpRepoDir env.tempDir repo.url version)),
              .gitClone repo.url (tmpRepoDir env.tempDir repo.url version)],
            hres, by simp, by intro d2; simp, ?_⟩
          left
          constructor
          · exact ⟨"Failed to clone repository",
              by simp [install_version_impl, hexp, hrepo, hver, hclone]⟩
          · simp [install_version_impl, hexp, hrepo, hver, hclone]
        · by_cases hupd : env.updateOk = false
          · refine ⟨[.createDirAll (parentPath (tmpRepoDir env.tempDir repo.url version)),
                .gitClone repo.url (tmpRepoDir env.tempDir repo.url version),
                .gitUpdate version (tmpRepoDir env.tempDir repo.url version)],
              hres, by simp, by intro d2; simp, ?_⟩
            left
            constructor
            · exact ⟨"Failed to check out revision",
                by simp [install_version_impl, hexp, hrepo, hver, hclone, hupd]⟩
            · simp [install_version_impl, hexp, hrepo, hver, hclone, hupd]
          · by_cases hdump : env.dumpOk = false
            · refine ⟨[.createDirAll (parentPath (tmpRepoDir env.tempDir repo.url version)),
                  .gitClone repo.url (tmpRepoDir env.tempDir repo.url version),
                  .gitUpdate version (tmpRepoDir env.tempDir repo.url version),
                  .dumpPackage (tmpRepoDir env.tempDir repo.url version)],
                hres, by simp, by intro d2; simp, ?_⟩
              left
              constructor
              · exact ⟨"Failed to dump package",
                  by simp [install_version_impl, hexp, hrepo, hver, hclone,
                    hupd, hdump]⟩
              · simp [install_version_impl, hexp, hrepo, hver, hclone, hupd, hdump]
            · rcases hexe : get_executable_names env.packageJson with e | executables
              · refine ⟨[.createDirAll (parentPath (tmpRepoDir env.tempDir repo.url version)),
                    .gitClone repo.url (tmpRepoDir env.tempDir repo.url version),
                    .gitUpdate version (tmpRepoDir env.tempDir repo.url version),
                    .dumpPackage (tmpRepoDir env.tempDir repo.url version)],
                  hres, by simp, by intro d2; simp, ?_⟩
                left
                constructor
                · exact ⟨e, by simp [install_version_impl, hexp, hrepo, hver, hclone,
                    hupd, hdump, hexe]⟩
                · simp [install_version_impl, hexp, hrepo, hver, hclone, hupd, hdump,
                    hexe]
              · by_cases hemp : executables.isEmpty
                · refine ⟨[.createDirAll (parentPath (tmpRepoDir env.tempDir repo.url version)),
                      .gitClone repo.url (tmpRepoDir env.tempDir repo.url version),
                      .gitUpdate version (tmpRepoDir env.tempDir repo.url version),
                      .dumpPackage (tmpRepoDir env.tempDir repo.url version)],
                    hres, by simp, by intro d2; simp, ?_⟩
                  left
                  constructor
                  · exact ⟨"No executables found in the package",
                      by simp [install_version_impl, hexp, hrepo, hver, hclone,
                        hupd, hdump, hexe, hemp]⟩
                  · simp [install_version_impl, hexp, hrepo, hver, hclone, hupd, hdump,
                      hexe, hemp]
                · rcases hloop : installLoop env executables with ⟨res, lt⟩
                  have hltR : ∀ d2, Effect.removeAll d2 ∉ lt := by
                    intro d2
                    have := installLoop_no_removeAll env executables d2
                    rw [hloop] at this
                    exact this
                  refine ⟨[.createDirAll (parentPath (tmpRepoDir env.tempDir repo.url version)),
                      .gitClone repo.url (tmpRepoDir env.tempDir repo.url version),
                      .gitUpdate version (tmpRepoDir env.tempDir repo.url version),
                      .dumpPackage (tmpRepoDir env.tempDir repo.url version)] ++ lt,
                    hres, by simp, ?_, ?_⟩
                  · intro d2
                    simp only [List.mem_append, List.mem_cons, List.not_mem_nil,
                      or_false]
                    intro hmem
                    rcases hmem with (h | h | h | h) | h
                    · exact Effect.noConfusion h
                    · exact Effect.noConfusion h
                    · exact Effect.noConfusion h
                    · exact Effect.noConfusion h
                    · exact hltR d2 h
                  · cases res with
                    | error e =>
                      left
                      constructor
                      · exact ⟨e, by simp [install_version_impl, hexp, hrepo, hver,
                          hclone, hupd, hdump, hexe, hemp, hloop]⟩
                      · simp [install_version_impl, hexp, hrepo, hver, hclone, hupd,
                          hdump, hexe, hemp, hloop]
                    | ok u =>
                      right
                      constructor
                      · simp [install_version_impl, hexp, hrepo, hver, hclone, hupd,
                          hdump, hexe, hemp, hloop]
                      · simp [install_version_impl, hexp, hrepo, hver, hclone, hupd,
                          hdump, hexe, hemp, hloop]

/-- C8: the workspace directory is removed as the final effect exactly on
the success path — on success the trace begins with the forcible
pre-clone removal of the workspace and ends with its cleanup removal; on
every failure the trace does not end in a removal; the only path ever
removed is the workspace itself (in particular nothing ever removes
installed artifacts — no rollback); and when some product's build,
bin-path query or copy fails after earlier products succeeded, the
install fails while the artifact copies of the earlier products stay in
the trace. -/
theorem c8_cleanup_only_on_success :
    (∀ env : InstallEnv, (install_version_impl env).1 = .ok () →
        ∃ d, resolvedWorkspace env = some d ∧
          (install_version_impl env).2.head? = some (.removeAll d) ∧
          (install_version_impl env).2.getLast? = some (.removeAll d))
  ∧ (∀ (env : InstallEnv) (e : String),
        (install_version_impl env).1 = .error e →
        ∀ d, (install_version_impl env).2.getLast? ≠ some (.removeAll d))
  ∧ (∀ (env : InstallEnv) (d : String),
        Effect.removeAll d ∈ (install_version_impl env).2 →
        resolvedWorkspace env = some d)
  ∧ (∀ (env : InstallEnv) (repo : SwiftPackageRepo) (version : String)
        (pre : List String) (p : String) (post : List String),
        env.experimental = true →
        SwiftPackageRepo.from_str env.urlParse env.name = .ok repo →
        resolveVersion env = .ok version →
        env.cloneOk = true → env.updateOk = true → env.dumpOk = true →
        get_executable_names env.packageJson = .ok (pre ++ p :: post) →
        (∀ q ∈ pre, env.buildOk q = true ∧ env.showBinOk q = true ∧
          env.copyOk q = true) →
        (env.buildOk p && env.showBinOk p && env.copyOk p) = false →
        (∃ e, (install_version_impl env).1 = .error e)
        ∧ ∀ q ∈ pre, Effect.copyArtifacts q (env.binPath q) ∈
            (install_version_impl env).2) := by
  refine ⟨?_, ?_, ?_, ?_⟩
  · intro env hok
    rcases install_shape env with ⟨_, e, he⟩ | ⟨d, mid, hres, hne, hnomid, hcase⟩
    · rw [hok] at he
      exact Except.noConfusion he
    · rcases hcase with ⟨⟨e, he⟩, _⟩ | ⟨_, htr⟩
      · rw [hok] at he
        exact Except.noConfusion he
      · refine ⟨d, hres, ?_, ?_⟩
        · rw [htr]; rfl
        · rw [htr]
          rw [show Effect.removeAll d :: (mid ++ [Effect.removeAll d]) =
            (Effect.removeAll d :: mid) ++ [Effect.removeAll d] by simp]
          rw [List.getLast?_append_of_ne_nil _ (by simp)]
          rfl
  · intro env e herr d
    rcases install_shape env with ⟨htr, _⟩ | ⟨d0, mid, hres, hne, hnomid, hcase⟩
    · rw [htr]
      simp
    · rcases hcase with ⟨_, htr⟩ | ⟨hok, _⟩
      · rw [htr]
        rw [show Effect.removeAll d0 :: mid = [Effect.removeAll d0] ++ mid from rfl]
        rw [List.getLast?_append_of_ne_nil _ hne]
        intro hlast
        exact hnomid d (List.mem_of_mem_getLast? hlast)
      · rw [hok] at herr
        exact Except.noConfusion herr
  · intro env d hmem
    rcases install_shape env with ⟨htr, _⟩ | ⟨d0, mid, hres, hne, hnomid, hcase⟩
    · rw [htr] at hmem
      exact absurd hmem (List.not_mem_nil _)
    · rcases hcase with ⟨_, htr⟩ | ⟨_, htr⟩ <;> rw [htr] at hmem
      · rcases List.mem_cons.mp hmem with h | h
        · injection h with h
          rw [h]
          exact hres
        · exact absurd h (hnomid d)
      · rcases List.mem_cons.mp hmem with h | h
        · injection h with h
          rw [h]
          exact hres
        · rcases List.mem_append.mp h with h | h
          · exact absurd h (hnomid d)
          · rcases List.mem_cons.mp h with h | h
            · injection h with h
              rw [h]
              exact hres
            · exact absurd h (List.not_mem_nil _)
  · intro env repo version pre p post hexp hrepo hver hclone hupd hdump hexe
      hall hfail
    obtain ⟨e, he⟩ := installLoop_fail_head env p post hfail
    have hloopEq := installLoop_ok_prefix env pre (p :: post) hall
    rcases hl : installLoop env (p :: post) with ⟨res, lt0⟩
    rw [hl] at he hloopEq
    cases res with
    | ok u => exact absurd he (by simp)
    | error e2 =>
      have hexpT : ¬(env.experimental = false) := by simp [hexp]
      have hcloneT : ¬(env.cloneOk = false) := by simp [hclone]
      have hupdT : ¬(env.updateOk = false) := by simp [hupd]
      have hdumpT : ¬(env.dumpOk = false) := by simp [hdump]
      have hempT : (pre ++ p :: post).isEmpty = false := by simp
      have hinst : install_version_impl env =
          (.error e2,
           [Effect.removeAll (tmpRepoDir env.tempDir repo.url version),
            Effect.createDirAll (parentPath (tmpRepoDir env.tempDir repo.url version)),
            Effect.gitClone repo.url (tmpRepoDir env.tempDir repo.url version),
            Effect.gitUpdate version (tmpRepoDir env.tempDir repo.url version),
            Effect.dumpPackage (tmpRepoDir env.tempDir repo.url version)] ++
             (pre.flatMap (fun q =>
               [.buildProduct q, .showBinPath q,
                .copyArtifacts q (env.binPath q)]) ++ lt0)) := by
        simp [install_version_impl, hexpT, hrepo, hver, hcloneT, hupdT, hdumpT,
          hexe, hempT, hloopEq]
      rw [hinst]
      refine ⟨⟨e2, rfl⟩, ?_⟩
      intro q hq
      simp only [List.mem_append, List.mem_flatMap]
      right
      left
      exact ⟨q, hq, by simp⟩

/-- C8 witness: a two-product package whose second product fails to
build — the install fails and the first product's artifact copy is in
the trace. -/
theorem c8_cleanup_only_on_success_witness :
    (∃ e, (install_version_impl
      { experimental := true, tempDir := "/tmp", name := "owner/repo",
        version := "1.0.0", releases := [], urlParse := urlParseModel,
        cloneOk := true, updateOk := true, dumpOk := true,
        packageJson := .obj [("products", .arr
          [.obj [("name", .str "a"), ("type", .obj [("executable", .null)])],
           .obj [("name", .str "b"), ("type", .obj [("executable", .null)])]])],
        buildOk := fun q => q = "a", showBinOk := fun _ => true,
        binPath := fun _ => "/b", copyOk := fun _ => true }).1 = .error e)
    ∧ Effect.copyArtifacts "a" "/b" ∈ (install_version_impl
      { experimental := true, tempDir := "/tmp", name := "owner/repo",
        version := "1.0.0", releases := [], urlParse := urlParseModel,
        cloneOk := true, updateOk := true, dumpOk := true,
        packageJson := .obj [("products", .arr
          [.obj [("name", .str "a"), ("type", .obj [("executable", .null)])],
           .obj [("name", .str "b"), ("type", .obj [("executable", .null)])]])],
        buildOk := fun q => q = "a", showBinOk := fun _ => true,
        binPath := fun _ => "/b", copyOk := fun _ => true }).2 := by
  have h := c8_cleanup_only_on_success.2.2.2
    { experimental := true, tempDir := "/tmp", name := "owner/repo",
      version := "1.0.0", releases := [], urlParse := urlParseModel,
      cloneOk := true, updateOk := true, dumpOk := true,
      packageJson := .obj [("products", .arr
        [.obj [("name", .str "a"), ("type", .obj [("executable", .null)])],
         .obj [("name", .str "b"), ("type", .obj [("executable", .null)])]])],
      buildOk := fun q => q = "a", showBinOk := fun _ => true,
      binPath := fun _ => "/b", copyOk := fun _ => true }
    ⟨"https://github.com/owner/repo.git"⟩ "1.0.0" ["a"] "b" []
    rfl rfl rfl rfl rfl rfl rfl
    (by intro q hq; simp at hq; subst hq; exact ⟨by simp, rfl, rfl⟩)
    (by simp)
  exact ⟨h.1, h.2 "a" (by simp)⟩

/-- C10: the workspace key `sanitize(url) ++ "@" ++ revision` is not
injective — `("u@a", "b")` and `("u", "a@b")` are distinct pairs with the
same key, since `@` is not sanitised and the revision is embedded
verbatim — and a revision containing `/` changes the directory depth of
the workspace path, as its parent directory shows. -/
theorem c10_workspace_key_collisions :
    repoDirName "u@a" "b" = repoDirName "u" "a@b"
    ∧ (("u@a", "b") : String × String) ≠ ("u", "a@b")
    ∧ parentPath (tmpRepoDir "/tmp" "u" "ab") = "/tmp/spm"
    ∧ parentPath (tmpRepoDir "/tmp" "u" "a/b") = "/tmp/spm/u@a"
    ∧ parentPath (tmpRepoDir "/tmp" "u" "a/b") ≠ "/tmp/spm" := by
  refine ⟨rfl, by decide, rfl, rfl, by decide⟩

end Spm
